import Mathlib

/-!
Verification of the vector-service indexing core (`src/vector_service`).

The C++ sources are shallowly embedded: `HNSWIndex` (hnsw_index.cpp) and
`VectorStorage` (vector_storage.cpp) become Lean structures with pure state-passing
operations.  C++ `std::unordered_map` fields become association lists; `map[k] = v`
becomes `assocSet`, `map.find` becomes `List.lookup`, `map.erase` becomes
`assocErase`.  Machine integers (`size_t`, `uint64_t`) are `Nat` with explicit
bounds where serialization truncates; `float` values are carried as their 32-bit
patterns (`Nat`), and the distance functor is an abstract parameter returning `Int`
(only the ordering of scores matters to the wrapper code).  The third-party
`unum::usearch` primitive is not part of the repository; it is modelled from the
spec where noted.
-/

namespace VectorDb

/-- C++ `map[k] = v`: replace the binding of `k` in place if present, else append. -/
def assocSet {α β : Type} [BEq α] : List (α × β) → α → β → List (α × β)
  | [], k, v => [(k, v)]
  | (a, b) :: t, k, v => if k == a then (k, v) :: t else (a, b) :: assocSet t k v

/-- C++ `map.erase(k)`: drop the (unique) binding of `k`. -/
def assocErase {α β : Type} [BEq α] : List (α × β) → α → List (α × β)
  | [], _ => []
  | (a, b) :: t, k => if k == a then t else (a, b) :: assocErase t k

theorem lookup_assocSet_self {α β : Type} [BEq α] [LawfulBEq α]
    (l : List (α × β)) (k : α) (v : β) : (assocSet l k v).lookup k = some v := by
  induction l with
  | nil => simp [assocSet, List.lookup]
  | cons hd t ih =>
    obtain ⟨a, b⟩ := hd
    by_cases h : k == a
    · simp [assocSet, h, List.lookup]
    · simp only [assocSet, h, Bool.false_eq_true, if_false]
      simpa [List.lookup, h] using ih

theorem mem_assocSet {α β : Type} [BEq α] (l : List (α × β)) (k : α) (v : β)
    (p : α × β) : p ∈ assocSet l k v → p ∈ l ∨ p = (k, v) := by
  induction l with
  | nil => intro hp; simpa [assocSet] using hp
  | cons hd t ih =>
    obtain ⟨a, b⟩ := hd
    intro hp
    by_cases h : k == a
    · simp only [assocSet, h, if_true, List.mem_cons] at hp
      rcases hp with hp | hp
      · right; exact hp
      · left; exact List.mem_cons_of_mem _ hp
    · simp only [assocSet, h, Bool.false_eq_true, if_false, List.mem_cons] at hp
      rcases hp with hp | hp
      · left; exact hp ▸ List.mem_cons_self _ _
      · rcases ih hp with h' | h'
        · left; exact List.mem_cons_of_mem _ h'
        · right; exact h'

theorem assocSet_eq_append {α β : Type} [BEq α] [LawfulBEq α]
    (l : List (α × β)) (k : α) (v : β) (h : ∀ p ∈ l, p.1 ≠ k) :
    assocSet l k v = l ++ [(k, v)] := by
  induction l with
  | nil => simp [assocSet]
  | cons hd t ih =>
    obtain ⟨a, b⟩ := hd
    have ha : a ≠ k := h (a, b) (List.mem_cons_self _ _)
    have hk : (k == a) = false := beq_eq_false_iff_ne.mpr (fun he => ha he.symm)
    simp only [assocSet, hk, Bool.false_eq_true, if_false,
      ih (fun p hp => h p (List.mem_cons_of_mem _ hp)), List.cons_append]

/-! ### Data model (usearch_index.hpp, vector_storage.hpp) -/

/-- Enum `DistanceMetric` (usearch_index.hpp:13-17). -/
inductive DistanceMetric : Type
  | Euclidean
  | Cosine
  | DotProduct
  deriving DecidableEq

/-- Struct `HNSWConfig` (usearch_index.hpp:19-25), with the header's default values. -/
structure HNSWConfig : Type where
  M : Nat := 16
  ef_construction : Nat := 200
  ef_search : Nat := 50
  max_elements : Nat := 1000000
  metric : DistanceMetric := .Cosine
  deriving DecidableEq

/-- Struct `VectorData` (usearch_index.hpp:27-31): `values` carries the 32-bit patterns
of the `float` entries, `metadata` is an association list for the C++
`unordered_map`. -/
structure VectorData : Type where
  id : String
  values : List Nat
  metadata : List (String × String)
  deriving DecidableEq

/-- Struct `HNSWResult` (usearch_index.hpp:33-45).  The C++ `data` member is a pointer to
the stored record; the embedding copies the record.  `distance` is the score the
abstract distance functor returned. -/
structure HNSWResult : Type where
  id : String
  distance : Int
  data : VectorData
  deriving DecidableEq

/-- The abstract distance functor `(query, stored vector) → score` (spec §4.1); the
wrapper code under verification treats it as a black box, only `Int` ordering of the
scores matters. -/
abbrev Metric : Type := List Nat → List Nat → Int

/-- Errors thrown by the wrapper code (`std::runtime_error` with the respective
messages in hnsw_index.cpp:67,75 and vector_storage.cpp:115,129,156,172). -/
inductive VErr : Type
  | dimensionMismatch
  | duplicateId (id : String)
  | collectionNotFound (name : String)
  deriving DecidableEq

/-- Result of `HNSWIndex::insert`: the returned id, or the thrown error. -/
inductive InsertResult : Type
  | ok (id : String)
  | err (e : VErr)
  deriving DecidableEq

/-! ### The usearch primitive, modelled from the spec -/

/-- Modelled from the spec: the `unum::usearch::index_dense_gt<>` primitive
(`HNSWIndex::index_t`, usearch_index.hpp:49) is vendored outside this repository.
Per spec §4.2.4 its `search` returns the `count` smallest-score members in
ascending score order, per §7 its `add` fails once `max_elements` members are
present, and `expansion_search` is the configured dynamic candidate-list size
(hnsw_index.cpp:38). -/
structure USearchIndex : Type where
  expansion_search : Nat
  capacity : Nat
  elems : List (Nat × List Nat)
  deriving DecidableEq

/-- Ordering of usearch candidates by score. -/
def scoreLE (a b : Nat × Int) : Prop := a.2 ≤ b.2

instance : DecidableRel scoreLE := fun a b => inferInstanceAs (Decidable (a.2 ≤ b.2))

instance : IsTotal (Nat × Int) scoreLE := ⟨fun a b => Int.le_total a.2 b.2⟩

instance : IsTrans (Nat × Int) scoreLE := ⟨fun _ _ _ h1 h2 => Int.le_trans h1 h2⟩

/-- Modelled from the spec: `index_->add(key, data)` (hnsw_index.cpp:80); fails
(returning `false`) when the reserved capacity is exhausted (spec §7,
`CapacityExceeded` when `max_elements` reached). -/
def USearchIndex.add (s : USearchIndex) (key : Nat) (v : List Nat) :
    Bool × USearchIndex :=
  if s.elems.length < s.capacity then
    (true, { s with elems := s.elems ++ [(key, v)] })
  else
    (false, s)

/-- Modelled from the spec: `index_->remove(key)` (hnsw_index.cpp:115). -/
def USearchIndex.remove (s : USearchIndex) (key : Nat) : USearchIndex :=
  { s with elems := s.elems.filter (fun p => !(p.1 == key)) }

/-- Modelled from the spec: `index_->search(query, count)` (hnsw_index.cpp:141)
returns the `count` members with smallest scores, as `(key, score)` pairs in
ascending score order (spec §4.2.4 step 3). -/
def USearchIndex.search (d : Metric) (s : USearchIndex) (q : List Nat)
    (count : Nat) : List (Nat × Int) :=
  (List.insertionSort scoreLE (s.elems.map (fun p => (p.1, d q p.2)))).take count

/-! ### HNSWIndex (hnsw_index.cpp) -/

/-- The `HNSWIndex` state (usearch_index.hpp:86-96).  `data` is `data_`,
`id_to_key` is `id_to_key_`; trailing underscores are dropped. -/
structure HNSWIndex : Type where
  dimension : Nat
  config : HNSWConfig
  num_elements : Nat
  next_key : Nat
  index : USearchIndex
  data : List (Nat × VectorData)
  id_to_key : List (String × Nat)
  deriving DecidableEq

/-- The constructor `HNSWIndex::HNSWIndex` (hnsw_index.cpp:15-47): fresh empty
index; `expansion_search` is set to `config.ef_search` (line 38) and
`config.max_elements` slots are reserved (line 46); `next_key_` starts at 1
(usearch_index.hpp:90). -/
def HNSWIndex.make (dimension : Nat) (config : HNSWConfig) : HNSWIndex :=
  { dimension := dimension
    config := config
    num_elements := 0
    next_key := 1
    index := { expansion_search := config.ef_search
               capacity := config.max_elements
               elems := [] }
    data := []
    id_to_key := [] }

/-- The `std::hex` rendering of a `Nat` (lowercase digits, as `std::ostringstream`). -/
def hexStr (n : Nat) : String := String.mk (Nat.toDigits 16 n)

/-- Method `HNSWIndex::generate_id` (hnsw_index.cpp:51-59), with the current time in
microseconds passed explicitly.  Note `std::hex` is sticky on the stream: both the
timestamp and the key counter are rendered in hexadecimal. -/
def generate_id (now_us : Nat) (next_key : Nat) : String :=
  hexStr now_us ++ "-" ++ hexStr next_key

/-- The identifier format the claim describes (hex timestamp, hyphen, *decimal*
counter), stated for comparison with `generate_id`. -/
def generate_id_claimed (now_us : Nat) (next_key : Nat) : String :=
  hexStr now_us ++ "-" ++ toString next_key

/-- Method `HNSWIndex::insert` (hnsw_index.cpp:61-92).  `now_us` is the clock value an
empty-id insert would feed to `generate_id`.  A thrown error is returned together
with the state at the throw point. -/
def HNSWIndex.insert (idx : HNSWIndex) (now_us : Nat) (vector : List Nat)
    (id : String) (metadata : List (String × String)) : HNSWIndex × InsertResult :=
  if vector.length ≠ idx.dimension then
    (idx, .err .dimensionMismatch)
  else
    let actual_id := if id = "" then generate_id now_us idx.next_key else id
    if (idx.id_to_key.lookup actual_id).isSome then
      (idx, .err (.duplicateId actual_id))
    else
      let key := idx.next_key
      -- the add result is discarded by the source (line 80)
      ({ idx with
          next_key := idx.next_key + 1
          index := (idx.index.add key vector).2
          data := assocSet idx.data key ⟨actual_id, vector, metadata⟩
          id_to_key := assocSet idx.id_to_key actual_id key
          num_elements := idx.num_elements + 1 },
        .ok actual_id)

/-- Method `HNSWIndex::batch_insert` (hnsw_index.cpp:94-103): attempt each record in
order, swallow every failure, count the successes. -/
def HNSWIndex.batch_insert (idx : HNSWIndex) (now_us : Nat) :
    List VectorData → HNSWIndex × Nat
  | [] => (idx, 0)
  | v :: rest =>
    match idx.insert now_us v.values v.id v.metadata with
    | (idx', .ok _) =>
      let r := idx'.batch_insert now_us rest
      (r.1, r.2 + 1)
    | (idx', .err _) => idx'.batch_insert now_us rest

/-- Method `HNSWIndex::remove` (hnsw_index.cpp:105-122). -/
def HNSWIndex.remove (idx : HNSWIndex) (id : String) : HNSWIndex × Bool :=
  match idx.id_to_key.lookup id with
  | none => (idx, false)
  | some key =>
    ({ idx with
        index := idx.index.remove key
        data := assocErase idx.data key
        id_to_key := assocErase idx.id_to_key id
        num_elements := idx.num_elements - 1 },
      true)

/-- Method `HNSWIndex::size` (usearch_index.hpp:82). -/
def HNSWIndex.size (idx : HNSWIndex) : Nat := idx.num_elements

/-- Method `HNSWIndex::search` (hnsw_index.cpp:124-161).  The `ef` parameter is accepted
but never read by the source. -/
def HNSWIndex.search (idx : HNSWIndex) (d : Metric) (query : List Nat)
    (k ef : Nat) : Except VErr (List HNSWResult) :=
  if query.length ≠ idx.dimension then
    .error .dimensionMismatch
  else if idx.num_elements = 0 then
    .ok []
  else
    let actual_k := min k idx.num_elements
    let results := idx.index.search d query actual_k
    .ok (results.filterMap (fun r =>
      (idx.data.lookup r.1).map (fun vd => ⟨vd.id, r.2, vd⟩)))

/-- The dynamic candidate-list size in effect for `HNSWIndex::search`: the wrapper
passes only `actual_k` to the primitive (hnsw_index.cpp:141) and never touches the
expansion, so the one configured at construction (hnsw_index.cpp:38) governs;
neither `k` nor the `ef` argument enter it. -/
def HNSWIndex.searchEfUsed (idx : HNSWIndex) (k ef : Nat) : Nat :=
  idx.index.expansion_search

/-- The effective candidate-list size the claim asserts, following the spec's
words (`ef = max(ef_override, ef_search, k)`, spec §4.2.4), stated for comparison
with `HNSWIndex.searchEfUsed`. -/
def claimedEffectiveEf (config : HNSWConfig) (k ef : Nat) : Nat :=
  max ef (max config.ef_search k)

/-- Method `HNSWIndex::batch_search` (hnsw_index.cpp:163-215).  `hw` is
`std::thread::hardware_concurrency()`.  Thread `t` of the parallel path handles
query indices `[t*chunk, min((t+1)*chunk, n))`; the per-index writes are modelled
by concatenating the per-thread slices in thread order, which is index order. -/
def HNSWIndex.batch_search (idx : HNSWIndex) (d : Metric)
    (queries : List (List Nat)) (k ef hw : Nat) :
    Except VErr (List (List HNSWResult)) :=
  let num_queries := queries.length
  if num_queries ≤ 100 then
    queries.mapM (fun q => idx.search d q k ef)
  else
    let num_threads := min (min hw (max 1 (num_queries / 100))) 32
    let chunk_size := (num_queries + num_threads - 1) / num_threads
    ((List.range num_threads).flatMap
        (fun t => (queries.drop (t * chunk_size)).take chunk_size)).mapM
      (fun q => idx.search d q k ef)

/-- Method `HNSWIndex::get` (hnsw_index.cpp:217-231). -/
def HNSWIndex.get (idx : HNSWIndex) (id : String) : Option VectorData :=
  match idx.id_to_key.lookup id with
  | none => none
  | some key => idx.data.lookup key

/-! ### Persistence (hnsw_index.cpp:233-334)

The `.meta` sidecar is a byte stream; a byte is a `Nat`.  A `size_t`/`key_t`
field is its 8 little-endian bytes, a `float` its 4 little-endian bytes (the
stored 32-bit pattern).  The raw bytes of a `std::string` are modelled as one
token per character (its code point; for ASCII ids this is exactly the byte
stream the C++ writes). -/

/-- The 8 little-endian bytes of a `size_t`/`key_t` value (`ofs.write(&n, 8)`). -/
def writeU64 (n : Nat) : List Nat :=
  [n % 256, n / 256 % 256, n / 65536 % 256, n / 16777216 % 256,
   n / 4294967296 % 256, n / 1099511627776 % 256,
   n / 281474976710656 % 256, n / 72057594037927936 % 256]

/-- Reading `ifs.read(&n, 8)`: consume 8 bytes, little-endian. -/
def readU64 : List Nat → Option (Nat × List Nat)
  | b0 :: b1 :: b2 :: b3 :: b4 :: b5 :: b6 :: b7 :: rest =>
    some (b0 + 256 * b1 + 65536 * b2 + 16777216 * b3 + 4294967296 * b4 +
      1099511627776 * b5 + 281474976710656 * b6 + 72057594037927936 * b7, rest)
  | _ => none

/-- The 4 little-endian bytes of one `float` (its 32-bit pattern). -/
def writeF32 (x : Nat) : List Nat :=
  [x % 256, x / 256 % 256, x / 65536 % 256, x / 16777216 % 256]

/-- Reading one `float` via `ifs.read`. -/
def readF32 : List Nat → Option (Nat × List Nat)
  | b0 :: b1 :: b2 :: b3 :: rest =>
    some (b0 + 256 * b1 + 65536 * b2 + 16777216 * b3, rest)
  | _ => none

/-- The bytes of a `std::string` (`ofs.write(s.data(), s.size())`). -/
def writeChars (s : String) : List Nat := s.data.map Char.toNat

/-- Consume exactly `n` bytes. -/
def readBytes : Nat → List Nat → Option (List Nat × List Nat)
  | 0, l => some ([], l)
  | _ + 1, [] => none
  | n + 1, b :: l =>
    match readBytes n l with
    | some (bs, rest) => some (b :: bs, rest)
    | none => none

/-- Read an `n`-character string. -/
def readString (n : Nat) (l : List Nat) : Option (String × List Nat) :=
  match readBytes n l with
  | some (bs, rest) => some (String.mk (bs.map Char.ofNat), rest)
  | none => none

/-- Read `n` `float` patterns. -/
def readF32List : Nat → List Nat → Option (List Nat × List Nat)
  | 0, l => some ([], l)
  | n + 1, l =>
    match readF32 l with
    | some (x, l') =>
      match readF32List n l' with
      | some (xs, rest) => some (x :: xs, rest)
      | none => none
    | none => none

/-- One metadata pair as written by save (hnsw_index.cpp:260-267). -/
def writePair (p : String × String) : List Nat :=
  writeU64 p.1.length ++ writeChars p.1 ++ writeU64 p.2.length ++ writeChars p.2

/-- The metadata loop of load (hnsw_index.cpp:314-323): read `n` pairs, entering
each with `data.metadata[k] = v`. -/
def readMeta : Nat → List (String × String) → List Nat →
    Option (List (String × String) × List Nat)
  | 0, acc, l => some (acc, l)
  | n + 1, acc, l =>
    match readU64 l with
    | some (klen, l) =>
      match readString klen l with
      | some (k, l) =>
        match readU64 l with
        | some (vlen, l) =>
          match readString vlen l with
          | some (v, l) => readMeta n (assocSet acc k v) l
          | none => none
        | none => none
      | none => none
    | none => none

/-- One record as written by save (hnsw_index.cpp:247-268): internal key,
length-prefixed id bytes, length-prefixed float32 values, length-prefixed
metadata pairs. -/
def writeRecord (p : Nat × VectorData) : List Nat :=
  writeU64 p.1 ++
  writeU64 p.2.id.length ++ writeChars p.2.id ++
  writeU64 p.2.values.length ++ p.2.values.flatMap writeF32 ++
  writeU64 p.2.metadata.length ++ p.2.metadata.flatMap writePair

/-- The record loop of load (hnsw_index.cpp:296-327): read `n` records into the
cleared maps via `id_to_key_[data.id] = key; data_[key] = data`. -/
def readRecords : Nat → List (Nat × VectorData) → List (String × Nat) →
    List Nat →
    Option (List (Nat × VectorData) × List (String × Nat) × List Nat)
  | 0, dat, i2k, l => some (dat, i2k, l)
  | n + 1, dat, i2k, l =>
    match readU64 l with
    | some (key, l) =>
      match readU64 l with
      | some (idLen, l) =>
        match readString idLen l with
        | some (idStr, l) =>
          match readU64 l with
          | some (vlen, l) =>
            match readF32List vlen l with
            | some (vals, l) =>
              match readU64 l with
              | some (mlen, l) =>
                match readMeta mlen [] l with
                | some (meta, l) =>
                  readRecords n (assocSet dat key ⟨idStr, vals, meta⟩)
                    (assocSet i2k idStr key) l
                | none => none
              | none => none
            | none => none
          | none => none
        | none => none
      | none => none
    | none => none

/-- Method `HNSWIndex::save` (hnsw_index.cpp:233-274): the "file at `path`" is the
usearch graph snapshot (`index_->save`, delegated binary format) together with
the `.meta` sidecar bytes: `u64` record count, `u64` key counter at save time,
then the records. -/
def HNSWIndex.save (idx : HNSWIndex) : USearchIndex × List Nat :=
  (idx.index,
    writeU64 idx.data.length ++ writeU64 idx.next_key ++
      idx.data.flatMap writeRecord)

/-- Method `HNSWIndex::load` (hnsw_index.cpp:276-334): replace the graph by the loaded
snapshot, clear `data_`/`id_to_key_`, rebuild them from the sidecar, resume
`next_key_` at the persisted value and set `num_elements_` to `data_.size()`.
A failed read is `none` (the C++ leaves the stream failed; spec §4.4: decode
errors abort the load). -/
def HNSWIndex.load (idx : HNSWIndex) (file : USearchIndex × List Nat) :
    Option HNSWIndex :=
  match readU64 file.2 with
  | some (num, l) =>
    match readU64 l with
    | some (nk, l) =>
      match readRecords num [] [] l with
      | some (dat, i2k, _) =>
        some { idx with
          index := file.1
          next_key := nk
          data := dat
          id_to_key := i2k
          num_elements := dat.length }
      | none => none
    | none => none
  | none => none

/-! ### VectorStorage (vector_storage.cpp) -/

/-- The collection-manager state (`collections_`, vector_storage.hpp:72); the
on-disk side and `configs_` are not needed by the claims under verification. -/
structure VectorStorage : Type where
  collections : List (String × HNSWIndex)
  deriving DecidableEq

/-- Replace the named collection's index after a data-plane mutation. -/
def VectorStorage.setCollection (st : VectorStorage) (name : String)
    (idx : HNSWIndex) : VectorStorage :=
  { collections := assocSet st.collections name idx }

/-- Method `VectorStorage::insert` (vector_storage.cpp:105-119): unknown collection
throws `Collection not found`. -/
def VectorStorage.insert (st : VectorStorage) (now_us : Nat) (collection : String)
    (vector : List Nat) (id : String) (metadata : List (String × String)) :
    VectorStorage × InsertResult :=
  match st.collections.lookup collection with
  | none => (st, .err (.collectionNotFound collection))
  | some idx =>
    let r := idx.insert now_us vector id metadata
    (st.setCollection collection r.1, r.2)

/-- Method `VectorStorage::batch_insert` (vector_storage.cpp:121-133): unknown collection
throws `Collection not found`. -/
def VectorStorage.batch_insert (st : VectorStorage) (now_us : Nat)
    (collection : String) (vectors : List VectorData) :
    VectorStorage × Except VErr Nat :=
  match st.collections.lookup collection with
  | none => (st, .error (.collectionNotFound collection))
  | some idx =>
    let r := idx.batch_insert now_us vectors
    (st.setCollection collection r.1, .ok r.2)

/-- Method `VectorStorage::remove` (vector_storage.cpp:135-144): unknown collection
returns `false`, exactly as a present collection without the id does. -/
def VectorStorage.remove (st : VectorStorage) (collection : String)
    (id : String) : VectorStorage × Bool :=
  match st.collections.lookup collection with
  | none => (st, false)
  | some idx =>
    let r := idx.remove id
    (st.setCollection collection r.1, r.2)

/-- Method `VectorStorage::search` (vector_storage.cpp:146-160): unknown collection
throws `Collection not found`. -/
def VectorStorage.search (st : VectorStorage) (d : Metric) (collection : String)
    (query : List Nat) (k ef : Nat) : Except VErr (List HNSWResult) :=
  match st.collections.lookup collection with
  | none => .error (.collectionNotFound collection)
  | some idx => idx.search d query k ef

/-- Method `VectorStorage::batch_search` (vector_storage.cpp:162-176): unknown collection
throws `Collection not found`. -/
def VectorStorage.batch_search (st : VectorStorage) (d : Metric)
    (collection : String) (queries : List (List Nat)) (k ef hw : Nat) :
    Except VErr (List (List HNSWResult)) :=
  match st.collections.lookup collection with
  | none => .error (.collectionNotFound collection)
  | some idx => idx.batch_search d queries k ef hw

/-- Method `VectorStorage::get` (vector_storage.cpp:178-187): unknown collection returns
`nullptr`, exactly as a present collection without the id does. -/
def VectorStorage.get (st : VectorStorage) (collection : String)
    (id : String) : Option VectorData :=
  match st.collections.lookup collection with
  | none => none
  | some idx => idx.get id

/-! ### Well-formedness

Invariants every index reachable by the public operations satisfies; the bounds
are what the 8-byte/4-byte on-disk fields require (`size_t` lengths are tiny in
any reachable state; `float` patterns are 32-bit by construction). -/

/-- Well-formed `HNSWIndex` state. -/
def WFIndex (idx : HNSWIndex) : Prop :=
  idx.data.length < 18446744073709551616 ∧
  idx.next_key < 18446744073709551616 ∧
  (idx.data.map Prod.fst).Nodup ∧
  (idx.data.map (fun p => p.2.id)).Nodup ∧
  idx.id_to_key = idx.data.map (fun p => (p.2.id, p.1)) ∧
  idx.num_elements = idx.data.length ∧
  ∀ p ∈ idx.data,
    p.1 < 18446744073709551616 ∧
    p.2.id.length < 18446744073709551616 ∧
    p.2.values.length < 18446744073709551616 ∧
    (∀ x ∈ p.2.values, x < 4294967296) ∧
    p.2.metadata.length < 18446744073709551616 ∧
    (p.2.metadata.map Prod.fst).Nodup ∧
    ∀ q ∈ p.2.metadata,
      q.1.length < 18446744073709551616 ∧ q.2.length < 18446744073709551616

instance (idx : HNSWIndex) : Decidable (WFIndex idx) := by
  unfold WFIndex; infer_instance

/-! ### Round-trip lemmas for the sidecar format -/

theorem readU64_writeU64 (n : Nat) (h : n < 18446744073709551616)
    (r : List Nat) : readU64 (writeU64 n ++ r) = some (n, r) := by
  simp only [writeU64, List.cons_append, List.nil_append, readU64,
    Option.some.injEq, Prod.mk.injEq]
  exact ⟨by omega, trivial⟩

theorem readF32_writeF32 (x : Nat) (h : x < 4294967296)
    (r : List Nat) : readF32 (writeF32 x ++ r) = some (x, r) := by
  simp only [writeF32, List.cons_append, List.nil_append, readF32,
    Option.some.injEq, Prod.mk.injEq]
  exact ⟨by omega, trivial⟩

theorem readBytes_append (l r : List Nat) :
    readBytes l.length (l ++ r) = some (l, r) := by
  induction l with
  | nil => simp [readBytes]
  | cons b t ih => simp [readBytes, ih]

theorem readString_writeChars (s : String) (r : List Nat) :
    readString s.length (writeChars s ++ r) = some (s, r) := by
  obtain ⟨cs⟩ := s
  have hlen : (String.mk cs).length = (cs.map Char.toNat).length := by
    simp [String.length]
  simp only [writeChars, readString, hlen, readBytes_append]
  simp [List.map_map, Function.comp_def, Char.ofNat_toNat]

theorem readF32List_append (xs : List Nat) (h : ∀ x ∈ xs, x < 4294967296)
    (r : List Nat) : readF32List xs.length (xs.flatMap writeF32 ++ r) = some (xs, r) := by
  induction xs with
  | nil => simp [readF32List]
  | cons x t ih =>
    have h1 := readF32_writeF32 x (h x (List.mem_cons_self _ _))
      (t.flatMap writeF32 ++ r)
    have h2 := ih (fun y hy => h y (List.mem_cons_of_mem _ hy))
    simp only [List.flatMap_cons, List.append_assoc, List.length_cons,
      readF32List, h1, h2]

theorem readMeta_roundtrip (m : List (String × String))
    (acc : List (String × String)) (r : List Nat)
    (hnd : (m.map Prod.fst).Nodup)
    (hdisj : ∀ p ∈ m, ∀ q ∈ acc, q.1 ≠ p.1)
    (hb : ∀ p ∈ m, p.1.length < 18446744073709551616 ∧
      p.2.length < 18446744073709551616) :
    readMeta m.length acc (m.flatMap writePair ++ r) = some (acc ++ m, r) := by
  induction m generalizing acc with
  | nil => simp [readMeta]
  | cons p t ih =>
    obtain ⟨k, v⟩ := p
    have hbp := hb (k, v) (List.mem_cons_self _ _)
    have hk : k.length < 18446744073709551616 := hbp.1
    have hv : v.length < 18446744073709551616 := hbp.2
    simp only [List.map_cons, List.nodup_cons] at hnd
    have hknot : k ∉ t.map Prod.fst := hnd.1
    have hnd' : (t.map Prod.fst).Nodup := hnd.2
    have e1 := readU64_writeU64 k.length hk
      (writeChars k ++ (writeU64 v.length ++ (writeChars v ++ (t.flatMap writePair ++ r))))
    have e2 := readString_writeChars k
      (writeU64 v.length ++ (writeChars v ++ (t.flatMap writePair ++ r)))
    have e3 := readU64_writeU64 v.length hv
      (writeChars v ++ (t.flatMap writePair ++ r))
    have e4 := readString_writeChars v (t.flatMap writePair ++ r)
    have hdisj' : ∀ p' ∈ t, ∀ q ∈ assocSet acc k v, q.1 ≠ p'.1 := by
      intro p' hp' q hq
      rcases mem_assocSet acc k v q hq with hq' | hq'
      · exact hdisj p' (List.mem_cons_of_mem _ hp') q hq'
      · subst hq'
        intro he
        apply hknot
        have hkp : k = p'.1 := he
        rw [hkp]
        exact List.mem_map_of_mem Prod.fst hp'
    have e5 := ih (assocSet acc k v) hnd' hdisj'
      (fun p' hp' => hb p' (List.mem_cons_of_mem _ hp'))
    have hset : assocSet acc k v = acc ++ [(k, v)] :=
      assocSet_eq_append acc k v
        (fun q hq => hdisj (k, v) (List.mem_cons_self _ _) q hq)
    simp only [List.flatMap_cons, writePair, List.append_assoc, List.length_cons,
      readMeta, e1, e2, e3, e4, hset]
    rw [hset] at e5
    rw [e5, List.append_assoc]
    rfl

theorem readRecords_cons_step (key : Nat) (vd : VectorData) (n : Nat)
    (dat : List (Nat × VectorData)) (i2k : List (String × Nat)) (rest : List Nat)
    (hb : key < 18446744073709551616 ∧
      vd.id.length < 18446744073709551616 ∧
      vd.values.length < 18446744073709551616 ∧
      (∀ x ∈ vd.values, x < 4294967296) ∧
      vd.metadata.length < 18446744073709551616 ∧
      (vd.metadata.map Prod.fst).Nodup ∧
      ∀ q ∈ vd.metadata,
        q.1.length < 18446744073709551616 ∧ q.2.length < 18446744073709551616) :
    readRecords (n + 1) dat i2k (writeRecord (key, vd) ++ rest) =
      readRecords n (assocSet dat key vd) (assocSet i2k vd.id key) rest := by
  obtain ⟨hb1, hb2, hb3, hb4, hb5, hb6, hb7⟩ := hb
  have e1 := readU64_writeU64 key hb1
    (writeU64 vd.id.length ++ (writeChars vd.id ++ (writeU64 vd.values.length ++
      (vd.values.flatMap writeF32 ++ (writeU64 vd.metadata.length ++
        (vd.metadata.flatMap writePair ++ rest))))))
  have e2 := readU64_writeU64 vd.id.length hb2
    (writeChars vd.id ++ (writeU64 vd.values.length ++
      (vd.values.flatMap writeF32 ++ (writeU64 vd.metadata.length ++
        (vd.metadata.flatMap writePair ++ rest)))))
  have e3 := readString_writeChars vd.id
    (writeU64 vd.values.length ++
      (vd.values.flatMap writeF32 ++ (writeU64 vd.metadata.length ++
        (vd.metadata.flatMap writePair ++ rest))))
  have e4 := readU64_writeU64 vd.values.length hb3
    (vd.values.flatMap writeF32 ++ (writeU64 vd.metadata.length ++
      (vd.metadata.flatMap writePair ++ rest)))
  have e5 := readF32List_append vd.values hb4
    (writeU64 vd.metadata.length ++ (vd.metadata.flatMap writePair ++ rest))
  have e6 := readU64_writeU64 vd.metadata.length hb5
    (vd.metadata.flatMap writePair ++ rest)
  have e7 := readMeta_roundtrip vd.metadata [] rest hb6
    (fun _ _ q hq => absurd hq (List.not_mem_nil q)) hb7
  simp only [List.nil_append] at e7
  simp only [writeRecord, List.append_assoc, readRecords, e1, e2, e3, e4, e5,
    e6, e7]

theorem readRecords_roundtrip (ds : List (Nat × VectorData))
    (dat : List (Nat × VectorData)) (i2k : List (String × Nat)) (r : List Nat)
    (hknd : (ds.map Prod.fst).Nodup)
    (hind : (ds.map (fun p => p.2.id)).Nodup)
    (hkfresh : ∀ p ∈ ds, ∀ q ∈ dat, q.1 ≠ p.1)
    (hifresh : ∀ p ∈ ds, ∀ q ∈ i2k, q.1 ≠ p.2.id)
    (hb : ∀ p ∈ ds,
      p.1 < 18446744073709551616 ∧
      p.2.id.length < 18446744073709551616 ∧
      p.2.values.length < 18446744073709551616 ∧
      (∀ x ∈ p.2.values, x < 4294967296) ∧
      p.2.metadata.length < 18446744073709551616 ∧
      (p.2.metadata.map Prod.fst).Nodup ∧
      ∀ q ∈ p.2.metadata,
        q.1.length < 18446744073709551616 ∧ q.2.length < 18446744073709551616) :
    readRecords ds.length dat i2k (ds.flatMap writeRecord ++ r) =
      some (dat ++ ds, i2k ++ ds.map (fun p => (p.2.id, p.1)), r) := by
  induction ds generalizing dat i2k with
  | nil => simp [readRecords]
  | cons p t ih =>
    obtain ⟨key, vd⟩ := p
    have hbp := hb (key, vd) (List.mem_cons_self _ _)
    simp only [List.map_cons, List.nodup_cons] at hknd hind
    have hstep := readRecords_cons_step key vd t.length dat i2k
      (t.flatMap writeRecord ++ r) hbp
    have hdat : assocSet dat key vd = dat ++ [(key, vd)] :=
      assocSet_eq_append dat key vd
        (fun q hq => hkfresh (key, vd) (List.mem_cons_self _ _) q hq)
    have hi2k : assocSet i2k vd.id key = i2k ++ [(vd.id, key)] :=
      assocSet_eq_append i2k vd.id key
        (fun q hq => hifresh (key, vd) (List.mem_cons_self _ _) q hq)
    have hkfresh' : ∀ p' ∈ t, ∀ q ∈ assocSet dat key vd, q.1 ≠ p'.1 := by
      intro p' hp' q hq
      rcases mem_assocSet dat key vd q hq with hq' | hq'
      · exact hkfresh p' (List.mem_cons_of_mem _ hp') q hq'
      · subst hq'
        intro he
        apply hknd.1
        have hkp : key = p'.1 := he
        rw [hkp]
        exact List.mem_map_of_mem Prod.fst hp'
    have hifresh' : ∀ p' ∈ t, ∀ q ∈ assocSet i2k vd.id key, q.1 ≠ p'.2.id := by
      intro p' hp' q hq
      rcases mem_assocSet i2k vd.id key q hq with hq' | hq'
      · exact hifresh p' (List.mem_cons_of_mem _ hp') q hq'
      · subst hq'
        intro he
        apply hind.1
        have hkp : vd.id = p'.2.id := he
        rw [hkp]
        exact List.mem_map_of_mem (fun p => p.2.id) hp'
    have e := ih (assocSet dat key vd) (assocSet i2k vd.id key) hknd.2 hind.2
      hkfresh' hifresh' (fun p' hp' => hb p' (List.mem_cons_of_mem _ hp'))
    rw [hdat, hi2k] at e
    simp only [List.flatMap_cons, List.append_assoc, List.length_cons,
      List.map_cons, hstep]
    rw [hdat, hi2k, e, List.append_assoc, List.append_assoc]
    rfl

/-! ### Chunk coverage of the parallel batch-search fan-out -/

/-- Concatenating the per-thread slices `[t*c, t*c + c)` for `t < T` recovers the
whole list once `c * T` covers its length. -/
theorem flatMap_chunks_eq {α : Type} (c : Nat) :
    ∀ (T : Nat) (l : List α), l.length ≤ c * T →
      (List.range T).flatMap (fun t => (l.drop (t * c)).take c) = l := by
  intro T
  induction T with
  | zero =>
    intro l h
    simp only [Nat.mul_zero, Nat.le_zero, List.length_eq_zero] at h
    subst h
    simp
  | succ T ih =>
    intro l h
    have hlen : (l.drop c).length ≤ c * T := by
      rw [List.length_drop]
      have hms : c * (T + 1) = c * T + c := by ring
      omega
    have hstep : ∀ t : Nat, (l.drop (Nat.succ t * c)).take c =
        ((l.drop c).drop (t * c)).take c := by
      intro t
      rw [List.drop_drop]
      congr 2
      rw [Nat.succ_mul, Nat.add_comm]
    rw [List.range_succ_eq_map]
    simp only [List.flatMap_cons, List.flatMap_map, Function.comp_def, hstep,
      Nat.zero_mul, List.drop_zero]
    rw [ih (l.drop c) hlen]
    exact List.take_append_drop c l

/-- Ceiling coverage: `⌈n/T⌉ * T` covers `n` (the chunk computation of hnsw_index.cpp:191). -/
theorem le_ceil_mul (n T : Nat) (hT : 0 < T) : n ≤ ((n + T - 1) / T) * T := by
  rcases Nat.eq_zero_or_pos n with hn | hn
  · simp [hn]
  · have h1 : n + T - 1 = (n - 1) + T := by omega
    rw [h1, Nat.add_div_right _ hT, Nat.add_mul, Nat.one_mul,
      Nat.mul_comm ((n - 1) / T) T]
    have h2 := Nat.div_add_mod (n - 1) T
    have h3 : (n - 1) % T < T := Nat.mod_lt _ hT
    generalize hq : (n - 1) / T = q at h2 ⊢
    generalize hr : (n - 1) % T = r at h2 h3
    generalize hM : T * q = M at h2 ⊢
    omega

/-! ### Small facts about insert, shared by several claims -/

theorem insert_err_state (idx : HNSWIndex) (now_us : Nat) (v : List Nat)
    (id : String) (m : List (String × String)) (e : VErr) :
    (idx.insert now_us v id m).2 = .err e → (idx.insert now_us v id m).1 = idx := by
  intro h
  by_cases h1 : v.length ≠ idx.dimension
  · simp [HNSWIndex.insert, h1]
  · by_cases h2 : (idx.id_to_key.lookup
        (if id = "" then generate_id now_us idx.next_key else id)).isSome = true
    · simp [HNSWIndex.insert, h1, h2]
    · simp [HNSWIndex.insert, h1, h2] at h

theorem insert_ok_num (idx : HNSWIndex) (now_us : Nat) (v : List Nat)
    (id : String) (m : List (String × String)) (s : String) :
    (idx.insert now_us v id m).2 = .ok s →
      (idx.insert now_us v id m).1.num_elements = idx.num_elements + 1 := by
  intro h
  by_cases h1 : v.length ≠ idx.dimension
  · simp [HNSWIndex.insert, h1] at h
  · by_cases h2 : (idx.id_to_key.lookup
        (if id = "" then generate_id now_us idx.next_key else id)).isSome = true
    · simp [HNSWIndex.insert, h1, h2] at h
    · simp [HNSWIndex.insert, h1, h2]

/-! ### Concrete instances used by the witnesses -/

/-- A concrete distance functor for witnesses. -/
def exDist : Metric := fun _ _ => 0

/-- An empty index of dimension 1 with the default configuration. -/
def exIdx : HNSWIndex := HNSWIndex.make 1 {}

/-- State `exIdx` after inserting the vector `[7]` under id `"x"`. -/
def exIdx1 : HNSWIndex := (exIdx.insert 0 [7] "x" []).1

/-! ### The claims -/

/-- C1: for every index, every query vector of the configured dimension, and every
`k`, the list `HNSWIndex::search` returns has length at most `min(k, size)` and is
sorted by non-decreasing distance score; on an empty index the result is the empty
list. -/
theorem spec_search_length_sorted (idx : HNSWIndex) (d : Metric) (q : List Nat)
    (k ef : Nat) (hdim : q.length = idx.dimension) :
    ∃ l, idx.search d q k ef = .ok l ∧
      l.length ≤ min k idx.size ∧
      List.Sorted (fun a b => a.distance ≤ b.distance) l ∧
      (idx.size = 0 → l = []) := by
  have h1 : ¬(q.length ≠ idx.dimension) := by simp [hdim]
  by_cases hz : idx.num_elements = 0
  · refine ⟨[], ?_, by simp, by simp, fun _ => rfl⟩
    simp [HNSWIndex.search, h1, hz]
  · have hsearch : idx.search d q k ef =
        .ok ((idx.index.search d q (min k idx.num_elements)).filterMap
          (fun r => (idx.data.lookup r.1).map
            (fun vd => ⟨vd.id, r.2, vd⟩))) := by
      simp [HNSWIndex.search, h1, hz]
    refine ⟨_, hsearch, ?_, ?_, fun h0 => absurd h0 hz⟩
    · have hl1 := List.length_filterMap_le
        (fun r : Nat × Int => (idx.data.lookup r.1).map
          (fun vd : VectorData => (⟨vd.id, r.2, vd⟩ : HNSWResult)))
        (idx.index.search d q (min k idx.num_elements))
      have hl2 : (idx.index.search d q (min k idx.num_elements)).length ≤
          min k idx.num_elements := by
        unfold USearchIndex.search
        rw [List.length_take]
        exact Nat.min_le_left _ _
      exact Nat.le_trans hl1 hl2
    · have hs : List.Pairwise scoreLE
          (idx.index.search d q (min k idx.num_elements)) :=
        List.Pairwise.sublist (List.take_sublist _ _)
          (List.sorted_insertionSort scoreLE _)
      refine List.Pairwise.filterMap _ ?_ hs
      intro a a' hle b hb b' hb'
      rw [Option.mem_def, Option.map_eq_some'] at hb hb'
      obtain ⟨vd, -, hvd⟩ := hb
      obtain ⟨vd', -, hvd'⟩ := hb'
      subst hvd hvd'
      exact hle

theorem spec_search_length_sorted_witness :
    ∃ l, exIdx.search exDist [0] 1 0 = .ok l ∧
      l.length ≤ min 1 exIdx.size ∧
      List.Sorted (fun a b => a.distance ≤ b.distance) l ∧
      (exIdx.size = 0 → l = []) :=
  spec_search_length_sorted exIdx exDist [0] 1 0 rfl

/-- C2: inserting a dimension-correct vector under a fresh (non-sentinel) id and
then calling `HNSWIndex::get` on that id returns exactly the record
`(id, values, metadata)` that was inserted. -/
theorem spec_insert_then_get (idx : HNSWIndex) (now_us : Nat) (v : List Nat)
    (id : String) (m : List (String × String))
    (hdim : v.length = idx.dimension) (hid : id ≠ "")
    (hfresh : idx.id_to_key.lookup id = none) :
    ∃ idx', idx.insert now_us v id m = (idx', .ok id) ∧
      idx'.get id = some ⟨id, v, m⟩ := by
  have h1 : ¬(v.length ≠ idx.dimension) := by simp [hdim]
  have hsnd : (idx.insert now_us v id m).2 = .ok id := by
    simp [HNSWIndex.insert, h1, hid, hfresh]
  have hget : (idx.insert now_us v id m).1.get id = some ⟨id, v, m⟩ := by
    simp [HNSWIndex.insert, h1, hid, hfresh, HNSWIndex.get, lookup_assocSet_self]
  exact ⟨(idx.insert now_us v id m).1, Prod.ext rfl hsnd, hget⟩

theorem spec_insert_then_get_witness :
    ∃ idx', exIdx.insert 0 [7] "x" [("a", "b")] = (idx', .ok "x") ∧
      idx'.get "x" = some ⟨"x", [7], [("a", "b")]⟩ :=
  spec_insert_then_get exIdx 0 [7] "x" [("a", "b")] rfl (by decide) rfl

/-- C3: an insert whose (non-sentinel) id is already mapped fails with the
duplicate-id error and returns the state at the throw point unchanged — hence the
first record, the id-to-key map, the payload store, the element count and the key
counter are all preserved; a dimension-mismatch insert likewise changes nothing. -/
theorem spec_duplicate_insert_rejected (idx : HNSWIndex) (now_us now_us' : Nat)
    (v v' : List Nat) (id : String) (m m' : List (String × String))
    (hid : id ≠ "") (hmapped : (idx.id_to_key.lookup id).isSome = true) :
    (v.length = idx.dimension →
      idx.insert now_us v id m = (idx, .err (.duplicateId id))) ∧
    (v'.length ≠ idx.dimension →
      idx.insert now_us' v' id m' = (idx, .err .dimensionMismatch)) := by
  constructor
  · intro hdim
    have h1 : ¬(v.length ≠ idx.dimension) := by simp [hdim]
    simp [HNSWIndex.insert, h1, hid, hmapped]
  · intro hdim'
    simp [HNSWIndex.insert, hdim']

theorem spec_duplicate_insert_rejected_witness :
    (([9] : List Nat).length = exIdx1.dimension →
      exIdx1.insert 1 [9] "x" [("c", "d")] = (exIdx1, .err (.duplicateId "x"))) ∧
    (([] : List Nat).length ≠ exIdx1.dimension →
      exIdx1.insert 2 [] "x" [] = (exIdx1, .err .dimensionMismatch)) :=
  spec_duplicate_insert_rejected exIdx1 1 2 [9] [] "x" [("c", "d")] []
    (by decide) (by decide)

/-- C4: `HNSWIndex::save` writes the payload sidecar as a u64 record count, the
key counter at save time, then per record the internal key, length-prefixed id
bytes, length-prefixed float32 values and length-prefixed metadata pairs (the
shape of `HNSWIndex.save`/`writeRecord`); `HNSWIndex::load` on a fresh index of
the same configuration reconstructs exactly the saved records, the id-to-key map
and the persisted key counter — load after save restores the index. -/
theorem spec_save_load_roundtrip (idx fresh : HNSWIndex) (hwf : WFIndex idx)
    (hdim : fresh.dimension = idx.dimension) (hcfg : fresh.config = idx.config) :
    fresh.load idx.save = some idx := by
  obtain ⟨hlen, hnk, hknd, hind, hmap, hnum, hb⟩ := hwf
  have e1 := readU64_writeU64 idx.data.length hlen
    (writeU64 idx.next_key ++ idx.data.flatMap writeRecord)
  have e2 := readU64_writeU64 idx.next_key hnk (idx.data.flatMap writeRecord)
  have e3 := readRecords_roundtrip idx.data [] [] [] hknd hind
    (fun _ _ q hq => absurd hq (List.not_mem_nil q))
    (fun _ _ q hq => absurd hq (List.not_mem_nil q)) hb
  rw [List.append_nil] at e3
  simp only [HNSWIndex.load, HNSWIndex.save, List.append_assoc, e1, e2, e3,
    List.nil_append, Option.some.injEq]
  rcases idx with ⟨d, c, n, k, u, dat, i2k⟩
  rcases fresh with ⟨fd, fc, fn, fk, fu, fdat, fi2k⟩
  simp only at hmap hnum hdim hcfg
  simp [hmap, hnum, hdim, hcfg]

theorem spec_save_load_roundtrip_witness :
    exIdx1.load exIdx1.save = some exIdx1 :=
  spec_save_load_roundtrip exIdx1 exIdx1 (by decide) rfl rfl

/-- C5: `HNSWIndex::batch_search` equals the per-query `search` results in input
order — even stronger than the claim's set-equality up to ties — on both the
sequential path (at most 100 queries) and the parallel fan-out path, whose
per-thread chunks cover the query indices exactly once (assuming at least one
hardware thread is reported). -/
theorem spec_batch_search_eq_search (idx : HNSWIndex) (d : Metric)
    (queries : List (List Nat)) (k ef hw : Nat) (hhw : 1 ≤ hw) :
    idx.batch_search d queries k ef hw =
      queries.mapM (fun q => idx.search d q k ef) := by
  unfold HNSWIndex.batch_search
  by_cases hn : queries.length ≤ 100
  · simp [hn]
  · simp only [hn, if_false]
    have hT : 0 < min (min hw (max 1 (queries.length / 100))) 32 := by omega
    rw [flatMap_chunks_eq _ _ _ (le_ceil_mul queries.length _ hT)]

theorem spec_batch_search_eq_search_witness :
    exIdx.batch_search exDist [[5]] 3 0 1 =
      ([[5]] : List (List Nat)).mapM (fun q => exIdx.search exDist q 3 0) :=
  spec_batch_search_eq_search exIdx exDist [[5]] 3 0 1 (by decide)

/-- C6 counterexample: with the default configuration (`ef_search = 50`), a search
with `k = 1` and override `ef = 100` would per the claim use an effective
candidate-list size of `max(100, 50, 1) = 100`; the code's effective expansion is
the constructed 50 — the override (and `k`) never reach the primitive — and the
search result is bitwise identical with and without the override. -/
theorem ctrex_ef_override :
    (HNSWIndex.make 1 ({} : HNSWConfig)).searchEfUsed 1 100 = 50 ∧
    claimedEffectiveEf ({} : HNSWConfig) 1 100 = 100 ∧
    (HNSWIndex.make 1 ({} : HNSWConfig)).searchEfUsed 1 100 ≠
      claimedEffectiveEf ({} : HNSWConfig) 1 100 := by
  exact ⟨rfl, rfl, by decide⟩

/-- C6 amended: the `ef` argument of `search` is silently ignored: the effective
candidate-list size is the `ef_search` fixed at construction (and preserved by
inserts), and the search result does not depend on the `ef` argument at all. -/
theorem spec_ef_ignored (dim k ef ef' : Nat) (cfg : HNSWConfig)
    (idx : HNSWIndex) (d : Metric) (q : List Nat) (now_us : Nat) (v : List Nat)
    (id : String) (m : List (String × String)) :
    (HNSWIndex.make dim cfg).searchEfUsed k ef = cfg.ef_search ∧
    idx.search d q k ef = idx.search d q k ef' ∧
    (idx.insert now_us v id m).1.searchEfUsed k ef = idx.searchEfUsed k ef := by
  refine ⟨rfl, rfl, ?_⟩
  by_cases h1 : v.length ≠ idx.dimension
  · simp [HNSWIndex.insert, h1]
  · by_cases h2 : (idx.id_to_key.lookup
        (if id = "" then generate_id now_us idx.next_key else id)).isSome = true
    · simp [HNSWIndex.insert, h1, h2]
    · by_cases h3 : idx.index.elems.length < idx.index.capacity
      · simp [HNSWIndex.insert, h1, h2, HNSWIndex.searchEfUsed,
          USearchIndex.add, h3]
      · simp [HNSWIndex.insert, h1, h2, HNSWIndex.searchEfUsed,
          USearchIndex.add, h3]

/-- A dimension-1 index with `max_elements = 1`, filled to capacity. -/
def exFullIdx : HNSWIndex :=
  ((HNSWIndex.make 1 { max_elements := 1 }).insert 0 [3] "x" []).1

/-- C7 evaluation at the failing input: on an index whose element count has
reached `max_elements`, `HNSWIndex::insert` performs no capacity check and
discards the failed graph `add` (hnsw_index.cpp:80 ignores the result): it
returns success, stores the payload and increments the count, leaving the graph
one element short of the payload store. -/
theorem spec_capacity_insert_succeeds :
    exFullIdx.size = exFullIdx.config.max_elements ∧
    (exFullIdx.insert 0 [5] "y" []).2 = .ok "y" ∧
    (exFullIdx.insert 0 [5] "y" []).1.num_elements = 2 ∧
    (exFullIdx.insert 0 [5] "y" []).1.data.length = 2 ∧
    (exFullIdx.insert 0 [5] "y" []).1.index.elems.length = 1 := by decide

/-- C8: `HNSWIndex::batch_insert` never propagates a per-record failure (it is
total on any record sequence), and it returns exactly the number of records that
were actually inserted: the element count grows by precisely the returned count,
which never exceeds the number of records given. -/
theorem spec_batch_insert_counts (idx : HNSWIndex) (now_us : Nat)
    (rs : List VectorData) :
    (idx.batch_insert now_us rs).2 ≤ rs.length ∧
    (idx.batch_insert now_us rs).1.num_elements =
      idx.num_elements + (idx.batch_insert now_us rs).2 := by
  induction rs generalizing idx with
  | nil => simp [HNSWIndex.batch_insert]
  | cons v rest ih =>
    rcases hins : idx.insert now_us v.values v.id v.metadata with ⟨idx', r⟩
    have h1 : (idx.insert now_us v.values v.id v.metadata).1 = idx' := by
      rw [hins]
    cases r with
    | ok s =>
      have hnum := insert_ok_num idx now_us v.values v.id v.metadata s
        (by rw [hins])
      rw [h1] at hnum
      have hb : idx.batch_insert now_us (v :: rest) =
          ((idx'.batch_insert now_us rest).1,
            (idx'.batch_insert now_us rest).2 + 1) := by
        simp [HNSWIndex.batch_insert, hins]
      obtain ⟨ihl, ihr⟩ := ih idx'
      rw [hb]
      exact ⟨by simpa using Nat.succ_le_succ ihl, by simp only []; omega⟩
    | err e =>
      have heq : idx' = idx := by
        rw [← h1]
        exact insert_err_state idx now_us v.values v.id v.metadata e (by rw [hins])
      have hb : idx.batch_insert now_us (v :: rest) =
          idx'.batch_insert now_us rest := by
        simp [HNSWIndex.batch_insert, hins]
      subst heq
      obtain ⟨ihl, ihr⟩ := ih idx'
      rw [hb]
      exact ⟨Nat.le_trans ihl (Nat.le_succ _), ihr⟩

/-- An example manager holding one empty collection named `"c"`. -/
def exStorage : VectorStorage := ⟨[("c", HNSWIndex.make 1 {})]⟩

/-- C9 counterexample: `VectorStorage::remove` and `VectorStorage::get` on the
unknown collection `"d"` return exactly the same values (`false` resp. null) as
on the existing collection `"c"` with an absent id — the caller cannot
distinguish a missing collection from a missing id on these two passthroughs. -/
theorem ctrex_remove_get_not_distinct :
    exStorage.remove "d" "x" = (exStorage, false) ∧
    exStorage.remove "c" "x" = (exStorage, false) ∧
    exStorage.get "d" "x" = none ∧
    exStorage.get "c" "x" = none := by decide

/-- C9 amended: on an unknown collection, `insert`, `batch_insert`, `search` and
`batch_search` throw the distinct collection-not-found error, while `remove`
returns `false` and `get` returns null — the same results an existing collection
with a missing id produces. -/
theorem spec_unknown_collection (st : VectorStorage) (d : Metric)
    (now_us : Nat) (c : String) (v q : List Nat) (id : String)
    (m : List (String × String)) (vs : List VectorData)
    (queries : List (List Nat)) (k ef hw : Nat)
    (hmiss : st.collections.lookup c = none) :
    st.insert now_us c v id m = (st, .err (.collectionNotFound c)) ∧
    st.batch_insert now_us c vs = (st, .error (.collectionNotFound c)) ∧
    st.search d c q k ef = .error (.collectionNotFound c) ∧
    st.batch_search d c queries k ef hw = .error (.collectionNotFound c) ∧
    st.remove c id = (st, false) ∧
    st.get c id = none := by
  refine ⟨?_, ?_, ?_, ?_, ?_, ?_⟩ <;>
    simp [VectorStorage.insert, VectorStorage.batch_insert, VectorStorage.search,
      VectorStorage.batch_search, VectorStorage.remove, VectorStorage.get, hmiss]

theorem spec_unknown_collection_witness :
    exStorage.insert 0 "d" [1] "x" [] =
      (exStorage, .err (.collectionNotFound "d")) ∧
    exStorage.batch_insert 0 "d" [] =
      (exStorage, .error (.collectionNotFound "d")) ∧
    exStorage.search exDist "d" [1] 1 0 = .error (.collectionNotFound "d") ∧
    exStorage.batch_search exDist "d" [] 1 0 1 =
      .error (.collectionNotFound "d") ∧
    exStorage.remove "d" "x" = (exStorage, false) ∧
    exStorage.get "d" "x" = none :=
  spec_unknown_collection exStorage exDist 0 "d" [1] [1] "x" [] [] [] 1 0 1 rfl

/-- C10 counterexample: at timestamp 10 µs with key counter 255, `generate_id`
produces `"a-ff"` — `std::hex` is sticky on the stream, so the key counter is
rendered in hexadecimal, not in decimal (`"a-255"`) as the claim states. -/
theorem ctrex_generated_id_hex :
    generate_id 10 255 = "a-ff" ∧
    generate_id_claimed 10 255 = "a-255" ∧
    generate_id 10 255 ≠ generate_id_claimed 10 255 := by decide

/-- C10 amended: an insert with the empty id treats it as omitted: it synthesizes
`hex(microseconds) ++ "-" ++ hex(key counter)` (both hexadecimal — `std::hex` is
sticky), stores the record under that id and returns it, provided the synthesized
string is not itself an existing id (otherwise the duplicate check rejects it);
records stored this way never carry the empty external id. -/
theorem spec_empty_id_generates (idx : HNSWIndex) (now_us : Nat) (v : List Nat)
    (m : List (String × String)) (hdim : v.length = idx.dimension)
    (hfresh : idx.id_to_key.lookup (generate_id now_us idx.next_key) = none)
    (hno : ∀ p ∈ idx.data, p.2.id ≠ "") :
    ∃ idx', idx.insert now_us v "" m =
        (idx', .ok (generate_id now_us idx.next_key)) ∧
      idx'.get (generate_id now_us idx.next_key) =
        some ⟨generate_id now_us idx.next_key, v, m⟩ ∧
      ∀ p ∈ idx'.data, p.2.id ≠ "" := by
  have h1 : ¬(v.length ≠ idx.dimension) := by simp [hdim]
  have hgen : generate_id now_us idx.next_key ≠ "" := by
    intro he
    have hlen := congrArg String.length he
    simp only [generate_id, String.length_append] at hlen
    rw [show ("-" : String).length = 1 by decide,
      show ("" : String).length = 0 by decide] at hlen
    omega
  have hsnd : (idx.insert now_us v "" m).2 =
      .ok (generate_id now_us idx.next_key) := by
    simp [HNSWIndex.insert, h1, hfresh]
  have hget : (idx.insert now_us v "" m).1.get (generate_id now_us idx.next_key) =
      some ⟨generate_id now_us idx.next_key, v, m⟩ := by
    simp [HNSWIndex.insert, h1, hfresh, HNSWIndex.get, lookup_assocSet_self]
  refine ⟨(idx.insert now_us v "" m).1, Prod.ext rfl hsnd, hget, ?_⟩
  intro p hp
  have hmem : p ∈ assocSet idx.data idx.next_key
      ⟨generate_id now_us idx.next_key, v, m⟩ := by
    simpa [HNSWIndex.insert, h1, hfresh] using hp
  rcases mem_assocSet _ _ _ _ hmem with h' | h'
  · exact hno p h'
  · subst h'
    exact hgen

theorem spec_empty_id_generates_witness :
    ∃ idx', exIdx.insert 3 [4] "" [] = (idx', .ok (generate_id 3 exIdx.next_key)) ∧
      idx'.get (generate_id 3 exIdx.next_key) =
        some ⟨generate_id 3 exIdx.next_key, [4], []⟩ ∧
      ∀ p ∈ idx'.data, p.2.id ≠ "" :=
  spec_empty_id_generates exIdx 3 [4] [] rfl rfl (by decide)

end VectorDb
